import Mathlib

/-!
Verification of the relevance scoring, classification and deduplication
pipeline of the DevOps job finder bot (`bot.py`).

The Python functions `score_job`, `parse_experience`, `detect_easy_apply`,
`within_days`, `load_seen_ids` and the body of `job_cycle` are shallowly
embedded below.  Python strings are modelled by Lean `String`
(ASCII-faithful: `str.lower` is modelled by `Char.toLower`, the regex
classes `\w`/`\s`/`\d` by their ASCII parts, which covers every string
constant appearing in the program).  A missing/`None`/string-valued dict
entry is modelled by the `PyField` type; Python raising is modelled by
`Except Unit`.  The network call in `detect_easy_apply` is abstracted by
a `fetch : String → Option String` oracle (`none` = the request raised).
-/

/-- `startsWith a t` : `a` is a prefix of `t` (char lists). -/
def startsWith : List Char → List Char → Bool
  | [], _ => true
  | _ :: _, [] => false
  | x :: xs, y :: ys => x = y && startsWith xs ys

/-- Python `needle in hay` (substring test) on char lists. -/
def containsSub (needle : List Char) : List Char → Bool
  | [] => needle.isEmpty
  | c :: t => startsWith needle (c :: t) || containsSub needle t

/-- Python `needle in hay` on strings. -/
def strContains (hay needle : String) : Bool :=
  containsSub needle.data hay.data

/-- Python `s.lower()` (ASCII). -/
def lowerStr (s : String) : String :=
  ⟨s.data.map Char.toLower⟩

/-- Python value of an optional dict entry: absent key, `None`, or a string. -/
inductive PyField where
  | absent
  | null
  | str (s : String)
deriving DecidableEq, Repr

/-- `job.get(k)`: `None` for an absent key or a stored `None`. -/
def pyGet : PyField → Option String
  | .absent => none
  | .null => none
  | .str s => some s

/-- `job.get(k, d)` with a string default `d`: the default only fires for an
absent key; a stored `None` comes back as `None`. -/
def pyGetD (f : PyField) (d : String) : Option String :=
  match f with
  | .absent => some d
  | .null => none
  | .str s => some s

/-- Python `a or b` on two optional strings (`None` and `""` are falsy). -/
def pyOr (a b : Option String) : Option String :=
  match a with
  | some s => if s = "" then b else some s
  | none => b

/-- Python `a or d` with a string right operand. -/
def pyOrS (a : Option String) (d : String) : String :=
  match a with
  | some s => if s = "" then d else s
  | none => d

/-- Python `f"{v}"` for an optional string: `None` prints as `"None"`. -/
def fstr : Option String → String
  | some s => s
  | none => "None"

/-- A raw posting record: the dict shape consumed by the pipeline.
`posted_datetime` is the structured timestamp (seconds), `none` when the
key is absent, `None`, or not a `datetime` (the `isinstance` guard). -/
structure Job where
  id : PyField := .absent
  title : PyField := .absent
  company : PyField := .absent
  snippet : PyField := .absent
  description : PyField := .absent
  location : PyField := .absent
  posted_text : PyField := .absent
  source : PyField := .absent
  link : PyField := .absent
  posted_datetime : Option Int := none
deriving DecidableEq, Repr

/-- `RESUME_KEYWORDS` from `bot.py`. -/
def RESUME_KEYWORDS : List String :=
  ["devops", "devops engineer", "devops intern", "cloud devops", "cloud engineer",
   "aws", "gcp", "google cloud", "google cloud platform", "azure",
   "docker", "kubernetes", "k8s", "ci/cd", "github actions", "gitlab", "jenkins",
   "terraform", "ansible", "infrastructure as code", "iac",
   "linux", "linux admin", "site reliability", "sre", "shell", "bash", "python",
   "nginx", "apache", "docker-compose"]

/-- `ROLE_KEYWORDS` from `bot.py`. -/
def ROLE_KEYWORDS : List String :=
  ["devops engineer", "associate devops", "cloud engineer", "devops intern", "linux",
   "sre", "site reliability", "infrastructure engineer", "platform engineer"]

/-- `WEIGHTS["role_exact"]`. -/
def WEIGHTS_role_exact : Int := 3
/-- `WEIGHTS["keyword"]`. -/
def WEIGHTS_keyword : Int := 1
/-- `WEIGHTS["intern_keyword"]`. -/
def WEIGHTS_intern_keyword : Int := 2

/-- `WEIGHTS["source_preference"].get(source, 0)`. -/
def source_preference (s : String) : Int :=
  if s = "linkedin" ∨ s = "naukri" ∨ s = "indeed" ∨ s = "internshala" then 1 else 0

/-- The lowercase text blob of `score_job`:
`" ".join([title or "", company or "", snippet or description or "",
location or "", posted_text or ""]).lower()`. -/
def text_fields (job : Job) : String :=
  lowerStr (pyOrS (pyGet job.title) "" ++ " " ++
            pyOrS (pyGet job.company) "" ++ " " ++
            pyOrS (pyOr (pyGet job.snippet) (pyGet job.description)) "" ++ " " ++
            pyOrS (pyGet job.location) "" ++ " " ++
            pyOrS (pyGet job.posted_text) "")

/-- `matched.add(s)` : sets are modelled as duplicate-free lists. -/
def setAdd (l : List String) (s : String) : List String :=
  if s ∈ l then l else l ++ [s]

/-- Python `<=` on strings (lexicographic by code point), as a Bool. -/
def listLe : List Char → List Char → Bool
  | [], _ => true
  | _ :: _, [] => false
  | x :: xs, y :: ys => if x = y then listLe xs ys else decide (x < y)

/-- Stable ascending insertion of a string (for `sorted(matched)`). -/
def insertStr (s : String) : List String → List String
  | [] => [s]
  | x :: xs => if listLe s.data x.data then s :: x :: xs else x :: insertStr s xs

/-- Python `sorted` on a list of strings. -/
def sortStrs (l : List String) : List String :=
  l.foldr insertStr []

/-- `score_job(job)` from `bot.py`.  Errors (`AttributeError`) when the
`source` key holds `None`, because of `job.get("source", "").lower()`. -/
def score_job (job : Job) : Except Unit (Int × List String) := do
  let text := text_fields job
  let acc := ROLE_KEYWORDS.foldl
    (fun (acc : Int × List String) r =>
      if strContains text r then (acc.1 + WEIGHTS_role_exact, setAdd acc.2 r) else acc)
    (0, [])
  let acc := RESUME_KEYWORDS.foldl
    (fun (acc : Int × List String) kw =>
      if strContains text kw then (acc.1 + WEIGHTS_keyword, setAdd acc.2 kw) else acc)
    acc
  let acc :=
    if strContains text "intern" || strContains text "internship" then
      (acc.1 + WEIGHTS_intern_keyword, setAdd acc.2 "intern")
    else acc
  match pyGetD job.source "" with
  | none => Except.error ()
  | some s =>
    let source := lowerStr s
    return (acc.1 + source_preference source, sortStrs acc.2)

/-- ASCII part of the regex class `\w` (Python `re`). -/
def isWordChar (c : Char) : Bool :=
  c.isAlphanum || c = '_'

/-- ASCII part of the regex class `\s` (Python `re`). -/
def pyIsSpace (c : Char) : Bool :=
  c = ' ' || c = '\t' || c = '\n' || c = '\x0d' || c = '\x0b' || c = '\x0c'

/-- Word-ness of the character bordering a match position (edges count as
non-word), for the regex anchor at word boundaries. -/
def wordB : Option Char → Bool
  | some c => isWordChar c
  | none => false

/-- One alternative `a` of a `\b(...)\b` pattern matches `t` at offset `i`. -/
def matchAt (t : List Char) (i : Nat) (a : List Char) : Bool :=
  startsWith a (t.drop i) &&
  (wordB (if i = 0 then none else t.get? (i - 1)) != wordB a.head?) &&
  (wordB a.getLast? != wordB (t.get? (i + a.length)))

/-- `re.search` of a `\b(alt1|alt2|...)\b` pattern: some alternative matches
somewhere in the text (the texts searched are already lowercase, so the
`re.I` flag is immaterial). -/
def matchesPattern (alts : List String) (text : String) : Bool :=
  (List.range (text.data.length + 1)).any fun i =>
    alts.any fun alt => matchAt text.data i alt.data

/-- Alternatives of `EXPERIENCE_PATTERNS["fresher"]`. -/
def fresherAlts : List String :=
  ["fresher", "entry level", "entry-level", "0-1 year", "0-6 month", "0-6 months", "intern"]
/-- Alternatives of `EXPERIENCE_PATTERNS["junior"]`. -/
def juniorAlts : List String :=
  ["junior", "associate", "jr.", "0-2 years", "1-2 years"]
/-- Alternatives of `EXPERIENCE_PATTERNS["mid"]` (`mid[- ]level` unfolded). -/
def midAlts : List String :=
  ["2-5 years", "2 years", "3 years", "4 years", "mid-level", "mid level"]
/-- Alternatives of `EXPERIENCE_PATTERNS["senior"]`. -/
def seniorAlts : List String :=
  ["5+ years", "5 years", "senior", "lead", "principal"]

/-- `int(digit string)`. -/
def digitsToNat (ds : List Char) : Nat :=
  ds.foldl (fun n c => n * 10 + (c.toNat - 48)) 0

/-- `re.search(r"(\d+)\+?\s*[-–]?\s*(\d+)?\s*\s*years?", text)`, returning
`int(m.group(1))`.  The scan tries every start position left to right; at a
digit the greedy component-wise match is exact for this pattern (no
backtracking can change success, see the shape of the regex: every later
component consumes none of the characters an earlier greedy one took in a
way that could matter). -/
def yearsScan : List Char → Option Nat
  | [] => none
  | c :: rest =>
    if c.isDigit then
      let ds := (c :: rest).takeWhile Char.isDigit
      let r1 := (c :: rest).dropWhile Char.isDigit
      let r2 := if r1.head? = some '+' then r1.tail else r1
      let r3 := r2.dropWhile pyIsSpace
      let r4 := if r3.head? = some '-' ∨ r3.head? = some '–' then r3.tail else r3
      let r5 := r4.dropWhile pyIsSpace
      let r6 := r5.dropWhile Char.isDigit
      let r7 := r6.dropWhile pyIsSpace
      if startsWith "year".data r7 then some (digitsToNat ds) else yearsScan rest
    else yearsScan rest

/-- `parse_experience(job)` from `bot.py`.  Errors (`TypeError` in
`" ".join`) when the `title` key holds `None`, because of
`job.get("title", "")`. -/
def parse_experience (job : Job) : Except Unit String :=
  match pyGetD job.title "" with
  | none => Except.error ()
  | some title =>
    let snip := pyOrS (pyOr (pyGetD job.snippet "") (pyGetD job.description "")) ""
    let text := lowerStr (title ++ " " ++ snip)
    if matchesPattern fresherAlts text then Except.ok "Fresher/Entry"
    else if matchesPattern juniorAlts text then Except.ok "Junior (0-2 yrs)"
    else if matchesPattern midAlts text then Except.ok "Mid (2-5 yrs)"
    else if matchesPattern seniorAlts text then Except.ok "Senior (5+ yrs)"
    else
      match yearsScan text.data with
      | some low =>
        Except.ok (if low ≤ 1 then "Fresher/Entry"
          else if low ≤ 2 then "Junior (0-2 yrs)"
          else if low ≤ 5 then "Mid (2-5 yrs)"
          else "Senior (5+ yrs)")
      | none => Except.ok "Unknown"

/-- `re.search(r"(\d+)\s+day", t)` returning `int(m.group(1))`. -/
def dayScan : List Char → Option Nat
  | [] => none
  | c :: rest =>
    if c.isDigit then
      let ds := (c :: rest).takeWhile Char.isDigit
      let r1 := (c :: rest).dropWhile Char.isDigit
      let sp := r1.takeWhile pyIsSpace
      let r2 := r1.dropWhile pyIsSpace
      if ¬ sp.isEmpty ∧ startsWith "day".data r2 then some (digitsToNat ds)
      else dayScan rest
    else dayScan rest

/-- `within_days(job, days)` from `bot.py`.  `now` stands for
`datetime.utcnow()` in seconds; `timedelta(days=days)` is `86400 * days`. -/
def within_days (now : Int) (job : Job) (days : Nat) : Bool :=
  match job.posted_datetime with
  | some posted => decide (now - 86400 * (days : Int) ≤ posted)
  | none =>
    let t := lowerStr (pyOrS (pyGet job.posted_text) "")
    if t ≠ "" then
      match dayScan t.data with
      | some n => decide (n ≤ days)
      | none =>
        if strContains t "today" || strContains t "just" ||
           strContains t "hour" || strContains t "minutes" then true
        else true
    else true

/-- `detect_easy_apply(job)` from `bot.py`.  `fetch` abstracts
`requests.get(link).text` (`none` = the request raised, e.g. timeout or an
invalid URL).  On the LinkedIn branch a successful fetch without either
marker falls through to the remaining rules, exactly as in the source. -/
def detect_easy_apply (fetch : String → Option String) (job : Job) : String :=
  let link := pyOrS (pyGet job.link) ""
  let source := lowerStr (pyOrS (pyGet job.source) "")
  let fromLinkedin : Option String :=
    if strContains link "linkedin" || source = "linkedin" then
      match fetch link with
      | some body =>
        let text := lowerStr body
        if strContains text "easy apply" || strContains text "easy-apply" then
          some "Easy Apply (LinkedIn)"
        else if strContains text "apply on company site" ||
                strContains text "apply on company website" then
          some "External apply (company site)"
        else none
      | none =>
        if strContains (lowerStr link) "apply" then some "Easy Apply (likely)"
        else some "External apply (likely)"
    else none
  match fromLinkedin with
  | some r => r
  | none =>
    if strContains link "internshala" || source = "internshala" then
      "Apply via Internshala"
    else if strContains link "indeed" && strContains (lowerStr link) "apply" then
      "Apply via Indeed"
    else if strContains link "naukri" then
      "Apply via Naukri (may require login)"
    else
      "External apply (visit company site)"

/-- The dedup key of `job_cycle` (line 301):
`job.get("link") or f"{job.get('title')}|{job.get('company')}"`. -/
def dedupKey (job : Job) : String :=
  pyOrS (pyGet job.link) (fstr (pyGet job.title) ++ "|" ++ fstr (pyGet job.company))

/-- The seen identifier of `job_cycle` (line 315):
`job.get("id") or job.get("link")` — may be `None`. -/
def seenIdOf (job : Job) : Option String :=
  pyOr (pyGet job.id) (pyGet job.link)

/-- An annotated posting, as built in the `job_cycle` loop. -/
structure AJob where
  job : Job
  score : Int
  matched : List String
  experience_level : String
  apply_type : String
deriving DecidableEq, Repr

/-- One iteration of the annotation loop of `job_cycle`: score, classify,
resolve the apply channel.  An exception in any step aborts the cycle (it
is caught only by the outermost handler of `job_cycle`). -/
def annotate (fetch : String → Option String) (j : Job) : Except Unit AJob := do
  let sm ← score_job j
  let exp ← parse_experience j
  let apply_type := detect_easy_apply fetch j
  return { job := j, score := sm.1, matched := sm.2,
           experience_level := exp, apply_type := apply_type }

/-- The annotation loop over `jobs_recent`. -/
def annotateAll (fetch : String → Option String) : List Job → Except Unit (List AJob)
  | [] => Except.ok []
  | j :: rest => do
    let a ← annotate fetch j
    let l ← annotateAll fetch rest
    return a :: l

/-- The comparison used by `sorted(annotated, key=lambda x: x["score"],
reverse=True)`: `a` may come before `b` iff `a`'s score is ≥ `b`'s.
A stable sort with this relation is exactly Python's stable descending
sort. -/
def byScoreDesc (a b : AJob) : Prop :=
  b.score ≤ a.score

instance : DecidableRel byScoreDesc :=
  fun a b => inferInstanceAs (Decidable (b.score ≤ a.score))

instance : IsTotal AJob byScoreDesc :=
  ⟨fun a b => le_total b.score a.score⟩

instance : IsTrans AJob byScoreDesc :=
  ⟨fun _ _ _ h1 h2 => le_trans h2 h1⟩

/-- The dedup of `job_cycle` (`unique = {}` insertion loop): keep the first
posting for each key, in order. -/
def dedupe (keys : List String) : List AJob → List AJob
  | [] => []
  | a :: rest =>
    if dedupKey a.job ∈ keys then dedupe keys rest
    else a :: dedupe (dedupKey a.job :: keys) rest

/-- The send-filter of `job_cycle`: skip a posting whose seen identifier is
in the loaded seen set, and any posting with score < 1. -/
def sendKeep (seen : List (Option String)) (a : AJob) : Bool :=
  !(decide (seenIdOf a.job ∈ seen)) && decide (1 ≤ a.score)

/-- The core of `job_cycle` (lines 276–369), from the point where the raw
postings have been collected: recency filter (7 days), annotate, stable
sort by descending score, dedup by key, then report every not-yet-seen
posting with score ≥ 1 and record its identifier.  The result is the list
of reported postings together with the persisted seen set (delivery
succeeding for every message; the seen set is a set — only membership is
meaningful).  An exception while annotating aborts the whole cycle
(caught by the outermost handler), modelled by `Except.error`. -/
def job_cycle (fetch : String → Option String) (now : Int) (all_jobs : List Job)
    (seen : List (Option String)) :
    Except Unit (List AJob × List (Option String)) := do
  let jobs_recent := all_jobs.filter (fun j => within_days now j 7)
  let annotated ← annotateAll fetch jobs_recent
  let annotated := List.insertionSort byScoreDesc annotated
  let jobs_unique := dedupe [] annotated
  let sent := jobs_unique.filter (sendKeep seen)
  return (sent, seen ++ sent.map (fun a => seenIdOf a.job))

/-- A parsed JSON value, as produced by `json.load`. -/
inductive PyJson where
  | null
  | str (s : String)
  | num (n : Int)
  | list (xs : List PyJson)
  | dict (kvs : List (String × PyJson))

/-- First value stored under key `k` in a dict. -/
def lookupKV (k : String) : List (String × PyJson) → Option PyJson
  | [] => none
  | (k', v) :: rest => if k' = k then some v else lookupKV k rest

/-- Whether a JSON value is hashable in Python (member of a set). -/
def pyHashable : PyJson → Bool
  | .list _ => false
  | .dict _ => false
  | _ => true

/-- Python `set(v)`: `none` models a raised `TypeError` (non-iterable
argument or unhashable element); a string iterates to its characters.
The set is modelled by the list of its elements — only membership is
meaningful, so duplicates are left in place. -/
def pySet : PyJson → Option (List PyJson)
  | .list xs => if xs.all pyHashable then some xs else none
  | .str s => some (s.data.map (fun c => PyJson.str ⟨[c]⟩))
  | _ => none

/-- `load_seen_ids()` from `bot.py`.  `store` abstracts the read-and-parse
of the seen file: `Except.error` when the file is missing, unreadable or
corrupt (`open`/`json.load` raised), `Except.ok` the parsed JSON
otherwise.  Every raising path inside the `try` (bad shapes included)
lands in the `except` and yields the empty set, so the model is total. -/
def load_seen_ids (store : Except Unit PyJson) : List PyJson :=
  match store with
  | .error _ => []
  | .ok d =>
    match d with
    | .dict kvs =>
      match lookupKV "seen" kvs with
      | none => []
      | some v => (pySet v).getD []
    | _ => []

/-- The identifier fallback chain in the words of the spec (§4.5): a
posting's `id` if present, else its `link`, else the composite
`title|company` string.  (Refinement reference only; the code definitions
above are `dedupKey` and `seenIdOf`.) -/
def spec_identifier (job : Job) : String :=
  match pyGet job.id with
  | some i => i
  | none =>
    match pyGet job.link with
    | some l => l
    | none => fstr (pyGet job.title) ++ "|" ++ fstr (pyGet job.company)

/-- "Appending a role phrase to the posting's text": extend `posted_text`
(the last field of the scorer's blob) with a space and the phrase. -/
def appendRole (job : Job) (r : String) : Job :=
  { job with posted_text := .str (pyOrS (pyGet job.posted_text) "" ++ " " ++ r) }

/-- The keyword part of a posting's score (everything except the source
weight), expressed through `countP` for reasoning. -/
def scoreVal (t : String) : Int :=
  WEIGHTS_role_exact * (ROLE_KEYWORDS.countP (fun k => strContains t k) : Int) +
  WEIGHTS_keyword * (RESUME_KEYWORDS.countP (fun k => strContains t k) : Int) +
  (if strContains t "intern" || strContains t "internship" then WEIGHTS_intern_keyword else 0)

/-- A field that Python's `job.get(k)` reads as `None`: absent or `None`. -/
def nullish (f : PyField) : Prop :=
  f = .absent ∨ f = .null

instance (f : PyField) : Decidable (nullish f) :=
  inferInstanceAs (Decidable (_ ∨ _))

/-- Every optional field of the record is absent. -/
def allAbsent (j : Job) : Prop :=
  j.id = .absent ∧ j.title = .absent ∧ j.company = .absent ∧ j.snippet = .absent ∧
  j.description = .absent ∧ j.location = .absent ∧ j.posted_text = .absent ∧
  j.source = .absent ∧ j.link = .absent ∧ j.posted_datetime = none

/-- Concrete posting used by the closed witnesses: title holds a role
phrase, link is the spec example's URL. -/
def jW : Job := { title := .str "devops engineer", link := .str "https://x/1" }

/-- The annotation the pipeline produces for `jW`. -/
def aW : AJob :=
  { job := jW, score := 5, matched := ["devops", "devops engineer"],
    experience_level := "Unknown", apply_type := "External apply (visit company site)" }

/-- A lower-scoring posting sharing `jW`'s link. -/
def jL : Job := { title := .str "devops", link := .str "https://x/1" }

/-- The annotation the pipeline produces for `jL`. -/
def aL : AJob :=
  { job := jL, score := 1, matched := ["devops"],
    experience_level := "Unknown", apply_type := "External apply (visit company site)" }

/-! ### Helper lemmas -/

theorem startsWith_append {n s : List Char} (e : List Char)
    (h : startsWith n s = true) : startsWith n (s ++ e) = true := by
  induction n generalizing s with
  | nil => simp [startsWith]
  | cons x xs ih =>
    cases s with
    | nil => simp [startsWith] at h
    | cons y ys =>
      simp only [startsWith, Bool.and_eq_true, decide_eq_true_eq] at h
      simp only [List.cons_append, startsWith, Bool.and_eq_true, decide_eq_true_eq]
      exact ⟨h.1, ih h.2⟩

theorem startsWith_refl (n : List Char) : startsWith n n = true := by
  induction n with
  | nil => simp [startsWith]
  | cons x xs ih => simp [startsWith, ih]

theorem containsSub_append {n s : List Char} (e : List Char)
    (h : containsSub n s = true) : containsSub n (s ++ e) = true := by
  induction s with
  | nil =>
    simp only [containsSub, List.isEmpty_iff] at h
    subst h
    induction e with
    | nil => simp [containsSub]
    | cons c t ih =>
      simp only [List.nil_append, containsSub, Bool.or_eq_true]
      exact Or.inl (by simp [startsWith])
  | cons c t ih =>
    simp only [containsSub, Bool.or_eq_true] at h
    simp only [List.cons_append, containsSub, Bool.or_eq_true]
    cases h with
    | inl h => exact Or.inl (startsWith_append e h)
    | inr h => exact Or.inr (ih h)

theorem containsSub_final (p n : List Char) : containsSub n (p ++ n) = true := by
  induction p with
  | nil => simp [List.nil_append]; cases n with
    | nil => simp [containsSub]
    | cons c t =>
      simp only [containsSub, Bool.or_eq_true]
      exact Or.inl (startsWith_refl _)
  | cons c t ih =>
    simp only [List.cons_append, containsSub, Bool.or_eq_true]
    exact Or.inr ih

theorem lowerStr_append (a b : String) :
    lowerStr (a ++ b) = lowerStr a ++ lowerStr b := by
  cases a with
  | mk da =>
    cases b with
    | mk db =>
      show String.mk ((String.mk (da ++ db)).data.map Char.toLower) = _
      apply String.ext
      simp [String.data_append, lowerStr]

theorem strContains_append_of (a e kw : String)
    (h : strContains a kw = true) : strContains (a ++ e) kw = true := by
  unfold strContains at h ⊢
  rw [String.data_append]
  exact containsSub_append _ h

theorem strContains_tail (p n : String) : strContains (p ++ n) n = true := by
  unfold strContains
  rw [String.data_append]
  exact containsSub_final _ _

theorem append_str_ne_empty (a b : String) : a ++ " " ++ b ≠ "" := by
  intro h
  have : (a ++ " " ++ b).data = ("" : String).data := by rw [h]
  simp [String.data_append] at this

theorem foldl_score_fst (w : Int) (p : String → Bool) (L : List String) :
    ∀ init : Int × List String,
      (L.foldl (fun acc k => if p k then (acc.1 + w, setAdd acc.2 k) else acc) init).1
        = init.1 + w * (L.countP p : Int) := by
  induction L with
  | nil => intro init; simp
  | cons x xs ih =>
    intro init
    by_cases hx : p x
    · simp only [List.foldl_cons, hx, if_pos, List.countP_cons, hx, if_true]
      rw [ih]
      push_cast
      ring
    · simp only [List.foldl_cons, hx, if_neg, Bool.false_eq_true, not_false_eq_true,
        List.countP_cons, hx]
      rw [ih]
      simp [hx]

theorem countP_lt_of_witness {L : List String} {p q : String → Bool} {r : String}
    (hmono : ∀ x ∈ L, p x = true → q x = true) (hm : r ∈ L)
    (hp : p r = false) (hq : q r = true) : L.countP p < L.countP q := by
  induction L with
  | nil => cases hm
  | cons x xs ih =>
    rcases List.mem_cons.mp hm with hx | hx
    · subst hx
      have h1 : xs.countP p ≤ xs.countP q :=
        List.countP_mono_left (fun a ha hpa => hmono a (List.mem_cons_of_mem _ ha) hpa)
      simp [List.countP_cons, hp, hq]
      omega
    · by_cases hpx : p x
      · have hqx : q x = true := hmono x (List.mem_cons_self _ _) hpx
        have := ih (fun a ha hpa => hmono a (List.mem_cons_of_mem _ ha) hpa) hx
        simp only [List.countP_cons, hpx, hqx, if_true]
        omega
      · have := ih (fun a ha hpa => hmono a (List.mem_cons_of_mem _ ha) hpa) hx
        simp only [List.countP_cons, hpx, if_false]
        by_cases hqx : q x <;> simp [hqx] <;> omega

/-- The score returned by `score_job` is the keyword sum plus the source
weight (and the source key did not hold `None`). -/
theorem score_job_score {j : Job} {pr : Int × List String}
    (h : score_job j = .ok pr) :
    ∃ sv, pyGetD j.source "" = some sv ∧
      pr.1 = scoreVal (text_fields j) + source_preference (lowerStr sv) := by
  unfold score_job at h
  cases hsv : pyGetD j.source "" with
  | none => rw [hsv] at h; simp at h
  | some sv =>
    rw [hsv] at h
    refine ⟨sv, rfl, ?_⟩
    simp only [bind, Except.bind, pure, Except.pure, Except.ok.injEq] at h
    subst h
    simp only [scoreVal]
    rw [foldl_score_fst, foldl_score_fst]
    by_cases hi : (strContains (text_fields j) "intern" || strContains (text_fields j) "internship") = true
    · simp only [hi, if_true]
      ring
    · rw [Bool.not_eq_true] at hi
      simp only [hi, Bool.false_eq_true, if_false]
      rw [foldl_score_fst, foldl_score_fst]
      push_cast
      ring

theorem pyOrS_some_ne {s : String} (d : String) (h : s ≠ "") :
    pyOrS (some s) d = s := by
  simp [pyOrS, h]

theorem map_toLower_space :
    List.map Char.toLower [' '] = [' '] := by decide

theorem text_fields_appendRole (j : Job) (r : String) :
    text_fields (appendRole j r) = text_fields j ++ " " ++ lowerStr r := by
  unfold text_fields appendRole
  simp only [pyGet]
  rw [pyOrS_some_ne _ (append_str_ne_empty _ _)]
  apply String.ext
  simp only [lowerStr, String.data_append, List.map_append, List.append_assoc,
    map_toLower_space]

theorem strContains_append2 (a b c kw : String)
    (h : strContains a kw = true) : strContains (a ++ b ++ c) kw = true :=
  strContains_append_of _ _ _ (strContains_append_of _ _ _ h)

theorem roles_lower : ∀ x ∈ ROLE_KEYWORDS, lowerStr x = x := by decide

theorem scoreVal_lt {t r : String} (hr : r ∈ ROLE_KEYWORDS)
    (hnot : strContains t r = false) :
    scoreVal t < scoreVal (t ++ " " ++ r) := by
  have hmono : ∀ kw, strContains t kw = true → strContains (t ++ " " ++ r) kw = true :=
    fun kw h => strContains_append2 _ _ _ _ h
  have hnew : strContains (t ++ " " ++ r) r = true := strContains_tail _ _
  have hR : ROLE_KEYWORDS.countP (fun k => strContains t k) <
      ROLE_KEYWORDS.countP (fun k => strContains (t ++ " " ++ r) k) :=
    countP_lt_of_witness (fun x _ h => hmono x h) hr hnot hnew
  have hK : RESUME_KEYWORDS.countP (fun k => strContains t k) ≤
      RESUME_KEYWORDS.countP (fun k => strContains (t ++ " " ++ r) k) :=
    List.countP_mono_left (fun x _ h => hmono x h)
  have hI : (if strContains t "intern" || strContains t "internship" then
        WEIGHTS_intern_keyword else 0) ≤
      (if strContains (t ++ " " ++ r) "intern" || strContains (t ++ " " ++ r) "internship" then
        WEIGHTS_intern_keyword else 0) := by
    by_cases hb : (strContains t "intern" || strContains t "internship") = true
    · rcases Bool.or_eq_true_iff.mp hb with h | h
      · simp [hb, hmono _ h]
      · simp [hb, hmono _ h]
    · rw [Bool.not_eq_true] at hb
      simp only [hb, Bool.false_eq_true, if_false]
      split <;> simp [WEIGHTS_intern_keyword]
  unfold scoreVal WEIGHTS_role_exact WEIGHTS_keyword at *
  omega

/-- C5 (confirmed): appending a role phrase of the profile that does not
yet occur in a posting's text blob to the posting's text (the end of its
`posted_text`, the blob's final component) strictly increases the score
returned by `score_job`. -/
theorem role_phrase_append_increases_score (j : Job) (r : String)
    (hr : r ∈ ROLE_KEYWORDS)
    (hnot : strContains (text_fields j) r = false)
    {s s' : Int} {m m' : List String}
    (h1 : score_job j = .ok (s, m))
    (h2 : score_job (appendRole j r) = .ok (s', m')) :
    s < s' := by
  obtain ⟨sv, hsv, he⟩ := score_job_score h1
  obtain ⟨sv', hsv', he'⟩ := score_job_score h2
  have hsrc : (appendRole j r).source = j.source := rfl
  rw [hsrc, hsv, Option.some.injEq] at hsv'
  subst hsv'
  rw [text_fields_appendRole, roles_lower r hr] at he'
  have hlt := @scoreVal_lt (text_fields j) r hr hnot
  have hes : s = scoreVal (text_fields j) + source_preference (lowerStr sv) := he
  have hes' : s' = scoreVal (text_fields j ++ " " ++ r) + source_preference (lowerStr sv) := he'
  omega

/-- C4 (confirmed): a posting with no structured timestamp and no
`posted_text` is classified as recent by `within_days`, for every
non-negative window. -/
theorem no_date_is_recent (now : Int) (j : Job) (days : Nat)
    (hdt : j.posted_datetime = none)
    (hpt : pyGet j.posted_text = none) :
    within_days now j days = true := by
  unfold within_days
  rw [hdt, hpt]
  rfl

/-- Witness for C4 at the all-absent record with a zero-day window. -/
theorem no_date_is_recent_witness :
    ({} : Job).posted_datetime = none ∧ pyGet ({} : Job).posted_text = none ∧
      within_days 0 {} 0 = true :=
  ⟨rfl, rfl, no_date_is_recent 0 {} 0 rfl rfl⟩

/-- Witness for C5: appending "sre" to the all-absent record raises the
score from 0 to 4. -/
theorem role_phrase_append_increases_score_witness :
    "sre" ∈ ROLE_KEYWORDS ∧ strContains (text_fields {}) "sre" = false ∧
    score_job {} = .ok (0, []) ∧ score_job (appendRole {} "sre") = .ok (4, ["sre"]) ∧
    (0 : Int) < 4 :=
  ⟨by decide, by decide, rfl, rfl,
    role_phrase_append_increases_score {} "sre" (by decide) (by decide) rfl rfl⟩

/-- C1 (corrected), counterexample: on a posting with `id = "X"` and
`link = "L"` the dedup key of line 301 is `"L"` (the chain there never
consults `id`), while the spec chain and the seen identifier of line 315
give `"X"`; so the two derivations are not the common spec chain. -/
theorem identifier_chain_counterexample :
    dedupKey { id := .str "X", link := .str "L" } ≠
      spec_identifier { id := .str "X", link := .str "L" } ∧
    some (dedupKey { id := .str "X", link := .str "L" }) ≠
      seenIdOf { id := .str "X", link := .str "L" } := by
  decide

/-- C1 (corrected), amended: the dedup key (`link` else `title|company`)
and the seen identifier (`id` else `link`) both agree with the spec's
fallback chain exactly on postings whose `id` reads as `None` and whose
`link` is a non-empty string. -/
theorem identifier_chain_amended (j : Job) (s : String)
    (hid : pyGet j.id = none) (hlink : pyGet j.link = some s) (hs : s ≠ "") :
    dedupKey j = spec_identifier j ∧ seenIdOf j = some (spec_identifier j) := by
  unfold dedupKey spec_identifier seenIdOf
  rw [hid, hlink]
  simp [pyOr, pyOrS, hs]

/-- Witness for the amended C1 at a posting carrying only a link. -/
theorem identifier_chain_amended_witness :
    dedupKey { link := .str "https://x/1" } =
      spec_identifier { link := .str "https://x/1" } ∧
    seenIdOf { link := .str "https://x/1" } =
      some (spec_identifier { link := .str "https://x/1" }) :=
  identifier_chain_amended { link := .str "https://x/1" } "https://x/1" rfl rfl (by decide)

/-- C7 (corrected), counterexample: the spec's worked example — a posting
whose `source` is `"naukri"` and which has no link — resolves to the
generic external label, not the Naukri "may require login" label: the
code only tests `"naukri" in link` and never the source. -/
theorem naukri_source_counterexample :
    detect_easy_apply (fun _ => none) { source := .str "naukri" } =
      "External apply (visit company site)" ∧
    detect_easy_apply (fun _ => none) { source := .str "naukri" } ≠
      "Apply via Naukri (may require login)" := by
  constructor
  · rfl
  · decide

/-- C7 (corrected), amended: the Naukri label is returned exactly when the
posting's *link* contains `"naukri"` and no earlier rule fires (for any
fetch behaviour); the source being `"naukri"` plays no role. -/
theorem naukri_label_amended (fetch : String → Option String) (j : Job)
    (hn : strContains (pyOrS (pyGet j.link) "") "naukri" = true)
    (hl : strContains (pyOrS (pyGet j.link) "") "linkedin" = false)
    (hsl : lowerStr (pyOrS (pyGet j.source) "") ≠ "linkedin")
    (hi : strContains (pyOrS (pyGet j.link) "") "internshala" = false)
    (hsi : lowerStr (pyOrS (pyGet j.source) "") ≠ "internshala")
    (hind : (strContains (pyOrS (pyGet j.link) "") "indeed" &&
      strContains (lowerStr (pyOrS (pyGet j.link) "")) "apply") = false) :
    detect_easy_apply fetch j = "Apply via Naukri (may require login)" := by
  unfold detect_easy_apply
  simp [hn, hl, hsl, hi, hsi, hind]

/-- Witness for the amended C7 at a posting whose link is a Naukri URL. -/
theorem naukri_label_amended_witness :
    detect_easy_apply (fun _ => none) { link := .str "https://www.naukri.com/job1" } =
      "Apply via Naukri (may require login)" :=
  naukri_label_amended (fun _ => none) { link := .str "https://www.naukri.com/job1" }
    (by decide) (by decide) (by decide) (by decide) (by decide) (by decide)

/-- C8 (corrected), counterexample: a `None`-valued `source` raises in the
scorer (`job.get("source", "").lower()`), and a `None`-valued `title`
raises in the experience classifier (`None` inside `" ".join`); so the
claim fails for null-valued fields. -/
theorem null_fields_raise_counterexample :
    score_job { source := .null } = .error () ∧
    parse_experience { title := .null } = .error () := by
  exact ⟨rfl, rfl⟩

theorem pyGetD_of_ne_null {f : PyField} (d : String) (h : f ≠ .null) :
    ∃ v, pyGetD f d = some v := by
  cases f with
  | absent => exact ⟨d, rfl⟩
  | null => exact absurd rfl h
  | str s => exact ⟨s, rfl⟩

theorem parse_experience_ok (j : Job) (tv : String)
    (htv : pyGetD j.title "" = some tv) : ∃ e, parse_experience j = .ok e := by
  unfold parse_experience
  rw [htv]
  dsimp only
  split_ifs <;> try exact ⟨_, rfl⟩
  split <;> exact ⟨_, rfl⟩

/-- C8 (corrected), amended: the scorer, the experience classifier and the
recency filter never raise on records whose optional fields are absent,
null or strings — except that a null `source` raises in the scorer and a
null `title` raises in the classifier; on the record with every optional
field absent they return the conservative defaults (score 0 with no
matches, "Unknown", recent). -/
theorem absent_or_null_fields_safe (j : Job) (now : Int) (days : Nat)
    (hsrc : j.source ≠ .null) (htitle : j.title ≠ .null) :
    (∃ p, score_job j = .ok p) ∧ (∃ e, parse_experience j = .ok e) ∧
    (allAbsent j → score_job j = .ok (0, []) ∧ parse_experience j = .ok "Unknown" ∧
      within_days now j days = true) := by
  obtain ⟨sv, hsv⟩ := pyGetD_of_ne_null "" hsrc
  obtain ⟨tv, htv⟩ := pyGetD_of_ne_null "" htitle
  have hscore : ∃ p, score_job j = .ok p := by
    unfold score_job
    rw [hsv]
    exact ⟨_, rfl⟩
  refine ⟨hscore, parse_experience_ok j tv htv, ?_⟩
  · intro hall
    obtain ⟨h1, h2, h3, h4, h5, h6, h7, h8, h9, h10⟩ := hall
    cases j
    simp only at h1 h2 h3 h4 h5 h6 h7 h8 h9 h10
    subst h1 h2 h3 h4 h5 h6 h7 h8 h9 h10
    refine ⟨rfl, rfl, ?_⟩
    unfold within_days
    rfl

/-- Witness for the amended C8 at the all-absent record. -/
theorem absent_or_null_fields_safe_witness :
    (∃ p, score_job {} = .ok p) ∧ (∃ e, parse_experience {} = .ok e) ∧
    (allAbsent {} → score_job {} = .ok (0, []) ∧ parse_experience {} = .ok "Unknown" ∧
      within_days 0 {} 0 = true) :=
  absent_or_null_fields_safe {} 0 0 (by decide) (by decide)

/-- C9 (confirmed): loading the seen set is total (never raises) — it
returns a list-of-identifiers for every state of the backing store, and
returns the empty set whenever the store could not be read (missing,
unreadable or corrupt file, i.e. `open`/`json.load` raised). -/
theorem load_seen_never_raises (store : Except Unit PyJson) :
    (∃ ids, load_seen_ids store = ids) ∧
    (∀ e : Unit, store = .error e → load_seen_ids store = []) := by
  refine ⟨⟨_, rfl⟩, ?_⟩
  rintro e rfl
  rfl

/-- Witness for C9 at the unreadable store. -/
theorem load_seen_never_raises_witness :
    load_seen_ids (.error ()) = [] :=
  (load_seen_never_raises (.error ())).2 () rfl

theorem job_cycle_ok {f : String → Option String} {now : Int} {jobs : List Job}
    {seen : List (Option String)} {out : List AJob} {seen' : List (Option String)}
    (h : job_cycle f now jobs seen = .ok (out, seen')) :
    ∃ l, annotateAll f (jobs.filter (fun j => within_days now j 7)) = .ok l ∧
      out = (dedupe [] (List.insertionSort byScoreDesc l)).filter (sendKeep seen) ∧
      seen' = seen ++ out.map (fun a => seenIdOf a.job) := by
  unfold job_cycle at h
  dsimp only at h
  cases hann : annotateAll f (jobs.filter (fun j => within_days now j 7)) with
  | error e => rw [hann] at h; simp [Bind.bind, Except.bind] at h
  | ok l =>
    rw [hann] at h
    simp only [Bind.bind, Except.bind, pure, Except.pure, Except.ok.injEq, Prod.mk.injEq] at h
    obtain ⟨h1, h2⟩ := h
    exact ⟨l, rfl, h1.symm, by rw [h2.symm, h1]⟩

theorem annotate_ok_fields {f : String → Option String} {j : Job} {a : AJob}
    (h : annotate f j = .ok a) :
    a.job = j ∧ score_job j = .ok (a.score, a.matched) := by
  unfold annotate at h
  cases hs : score_job j with
  | error e => rw [hs] at h; simp [Bind.bind, Except.bind] at h
  | ok sm =>
    rw [hs] at h
    cases he : parse_experience j with
    | error e => rw [he] at h; simp [Bind.bind, Except.bind] at h
    | ok exp =>
      rw [he] at h
      simp only [Bind.bind, Except.bind, pure, Except.pure, Except.ok.injEq] at h
      subst h
      exact ⟨rfl, rfl⟩

theorem annotateAll_mem {f : String → Option String} {js : List Job} {l : List AJob}
    (h : annotateAll f js = .ok l) {j : Job} (hj : j ∈ js) :
    ∃ a ∈ l, annotate f j = .ok a := by
  induction js generalizing l with
  | nil => cases hj
  | cons x xs ih =>
    unfold annotateAll at h
    cases ha : annotate f x with
    | error e => rw [ha] at h; simp [Bind.bind, Except.bind] at h
    | ok a =>
      rw [ha] at h
      cases hl : annotateAll f xs with
      | error e => rw [hl] at h; simp [Bind.bind, Except.bind] at h
      | ok l2 =>
        rw [hl] at h
        simp only [Bind.bind, Except.bind, pure, Except.pure, Except.ok.injEq] at h
        subst h
        rcases List.mem_cons.mp hj with rfl | hj2
        · exact ⟨a, List.mem_cons_self _ _, ha⟩
        · obtain ⟨b, hb, hab⟩ := ih hl hj2
          exact ⟨b, List.mem_cons_of_mem _ hb, hab⟩

theorem dedupe_sublist (ks : List String) (l : List AJob) :
    List.Sublist (dedupe ks l) l := by
  induction l generalizing ks with
  | nil => simp [dedupe]
  | cons x t ih =>
    unfold dedupe
    by_cases hx : dedupKey x.job ∈ ks
    · rw [if_pos hx]; exact (ih ks).cons x
    · rw [if_neg hx]; exact (ih _).cons₂ x

theorem dedupe_mem_decomp {ks : List String} {l : List AJob} {a : AJob}
    (h : a ∈ dedupe ks l) :
    dedupKey a.job ∉ ks ∧
      ∃ p sfx, l = p ++ a :: sfx ∧ ∀ b ∈ p, dedupKey b.job ≠ dedupKey a.job := by
  induction l generalizing ks with
  | nil => simp [dedupe] at h
  | cons x t ih =>
    unfold dedupe at h
    by_cases hx : dedupKey x.job ∈ ks
    · rw [if_pos hx] at h
      obtain ⟨hnot, p, sfx, heq, hpre⟩ := ih h
      refine ⟨hnot, x :: p, sfx, by rw [heq]; rfl, ?_⟩
      intro b hb
      rcases List.mem_cons.mp hb with rfl | hb2
      · exact fun hc => hnot (hc ▸ hx)
      · exact hpre b hb2
    · rw [if_neg hx] at h
      rcases List.mem_cons.mp h with rfl | h2
      · exact ⟨hx, [], t, rfl, by simp⟩
      · obtain ⟨hnot, p, sfx, heq, hpre⟩ := ih h2
        have hnx : dedupKey a.job ≠ dedupKey x.job :=
          fun hc => hnot (by rw [hc]; exact List.mem_cons_self _ _)
        have hnk : dedupKey a.job ∉ ks :=
          fun hc => hnot (List.mem_cons_of_mem _ hc)
        refine ⟨hnk, x :: p, sfx, by rw [heq]; rfl, ?_⟩
        intro b hb
        rcases List.mem_cons.mp hb with rfl | hb2
        · exact fun hc => hnx hc.symm
        · exact hpre b hb2

theorem dedupe_pairwise (ks : List String) (l : List AJob) :
    (dedupe ks l).Pairwise (fun a b => dedupKey a.job ≠ dedupKey b.job) := by
  induction l generalizing ks with
  | nil => simp [dedupe]
  | cons x t ih =>
    unfold dedupe
    by_cases hx : dedupKey x.job ∈ ks
    · rw [if_pos hx]; exact ih ks
    · rw [if_neg hx]
      rw [List.pairwise_cons]
      refine ⟨?_, ih _⟩
      intro b hb
      have hmem := (dedupe_mem_decomp hb).1
      exact fun hc => hmem (hc ▸ List.mem_cons_self _ _)

theorem countP_le_one_of_pairwise_ne {l : List AJob} {L : String}
    (h : l.Pairwise (fun a b => dedupKey a.job ≠ dedupKey b.job)) :
    l.countP (fun a => decide (dedupKey a.job = L)) ≤ 1 := by
  induction l with
  | nil => simp
  | cons a t ih =>
    rw [List.pairwise_cons] at h
    obtain ⟨ha, ht⟩ := h
    rw [List.countP_cons]
    by_cases hk : dedupKey a.job = L
    · have hz : t.countP (fun a => decide (dedupKey a.job = L)) = 0 := by
        rw [List.countP_eq_zero]
        intro b hb
        simp only [decide_eq_true_eq]
        intro hbL
        exact (ha b hb) (hk.trans hbL.symm)
      simp [hk, hz]
    · have := ih ht
      simp [hk]
      omega

theorem filter_scoreEq_orderedInsert (v : Int) (a : AJob) (l : List AJob) :
    (List.orderedInsert byScoreDesc a l).filter (fun x => decide (x.score = v)) =
      if a.score = v then a :: l.filter (fun x => decide (x.score = v))
      else l.filter (fun x => decide (x.score = v)) := by
  induction l with
  | nil =>
    simp only [List.orderedInsert, List.filter]
    by_cases hv : a.score = v <;> simp [hv]
  | cons b t ih =>
    simp only [List.orderedInsert]
    by_cases hab : byScoreDesc a b
    · rw [if_pos hab]
      by_cases hv : a.score = v <;> simp [hv, List.filter_cons]
    · rw [if_neg hab]
      by_cases hv : a.score = v
      · have hbv : ¬(b.score = v) := fun hbv => hab (le_of_eq (hbv.trans hv.symm))
        simp [List.filter_cons, ih, hv, hbv]
      · simp [List.filter_cons, ih, hv]

theorem filter_scoreEq_insertionSort (v : Int) (l : List AJob) :
    (List.insertionSort byScoreDesc l).filter (fun x => decide (x.score = v)) =
      l.filter (fun x => decide (x.score = v)) := by
  induction l with
  | nil => rfl
  | cons a t ih =>
    show (List.orderedInsert byScoreDesc a (List.insertionSort byScoreDesc t)).filter _ = _
    rw [filter_scoreEq_orderedInsert, ih]
    by_cases hv : a.score = v <;> simp [hv, List.filter_cons]

/-- C2 (confirmed): running the cycle a second time on the same raw input,
starting from the seen set persisted by the first run (the original seen
set extended with the identifiers of everything reported), reports
nothing. -/
theorem second_run_is_empty {f : String → Option String} {now : Int}
    {jobs : List Job} {seen seen2 seen3 : List (Option String)}
    {out1 out2 : List AJob}
    (h1 : job_cycle f now jobs seen = .ok (out1, seen2))
    (h2 : job_cycle f now jobs seen2 = .ok (out2, seen3)) :
    out2 = [] := by
  obtain ⟨l, hann, hout1, hseen2⟩ := job_cycle_ok h1
  obtain ⟨l2, hann2, hout2, _⟩ := job_cycle_ok h2
  rw [hann] at hann2
  injection hann2 with hl
  subst hl
  rw [hout2, List.filter_eq_nil_iff]
  intro a ha hkeep
  have hk : seenIdOf a.job ∉ seen2 ∧ 1 ≤ a.score := by
    unfold sendKeep at hkeep
    simp only [Bool.and_eq_true, Bool.not_eq_true', decide_eq_false_iff_not,
      decide_eq_true_eq] at hkeep
    exact hkeep
  obtain ⟨hns, hsc⟩ := hk
  rw [hseen2, List.mem_append] at hns
  have hns1 : seenIdOf a.job ∉ seen := fun hx => hns (Or.inl hx)
  have hns2 : seenIdOf a.job ∉ out1.map (fun a => seenIdOf a.job) :=
    fun hx => hns (Or.inr hx)
  have hkeep1 : sendKeep seen a = true := by
    unfold sendKeep
    simp only [Bool.and_eq_true, Bool.not_eq_true', decide_eq_false_iff_not,
      decide_eq_true_eq]
    exact ⟨hns1, hsc⟩
  have ha1 : a ∈ out1 := by
    rw [hout1]
    exact List.mem_filter.mpr ⟨ha, hkeep1⟩
  exact hns2 (List.mem_map.mpr ⟨a, ha1, rfl⟩)

/-- C6 (confirmed): every reported posting has score ≥ 1, the output is
sorted by descending score, and postings of equal score appear in the
order of the annotated input (the sort is stable): for each score value,
the equal-scored slice of the output is a subsequence of the annotated
recent postings in their original order. -/
theorem output_scores_and_order {f : String → Option String} {now : Int}
    {jobs : List Job} {seen seen' : List (Option String)} {out : List AJob}
    {l : List AJob}
    (h : job_cycle f now jobs seen = .ok (out, seen'))
    (hl : annotateAll f (jobs.filter (fun j => within_days now j 7)) = .ok l) :
    (∀ a ∈ out, 1 ≤ a.score) ∧
    out.Pairwise byScoreDesc ∧
    (∀ v : Int, List.Sublist (out.filter (fun a => decide (a.score = v))) l) := by
  obtain ⟨l2, hann, hout, _⟩ := job_cycle_ok h
  rw [hl] at hann
  injection hann with hll
  subst hll
  have hsub : List.Sublist out (List.insertionSort byScoreDesc l) := by
    rw [hout]
    exact (List.filter_sublist _).trans (dedupe_sublist _ _)
  refine ⟨?_, ?_, ?_⟩
  · intro a ha
    rw [hout] at ha
    have hkeep := (List.mem_filter.mp ha).2
    unfold sendKeep at hkeep
    simp only [Bool.and_eq_true, decide_eq_true_eq] at hkeep
    exact hkeep.2
  · have hsorted : (List.insertionSort byScoreDesc l).Pairwise byScoreDesc :=
      List.sorted_insertionSort byScoreDesc l
    exact hsorted.sublist hsub
  · intro v
    have h1 := hsub.filter (fun a => decide (a.score = v))
    rw [filter_scoreEq_insertionSort] at h1
    exact h1.trans (List.filter_sublist _)

/-- C3 (corrected), amended: for any batch and any link/key value `L`, the
output contains at most one entry whose dedup key is `L`, and such an
entry's score is maximal among all recent postings of the batch with that
key (ranking before dedup, first occurrence wins).  The entry can still
be absent altogether — when every posting with that key scores below 1
or its identifier is already seen — which is what refutes the original
claim. -/
theorem dedup_key_unique_and_max {f : String → Option String} {now : Int}
    {jobs : List Job} {seen seen' : List (Option String)} {out : List AJob}
    (L : String)
    (h : job_cycle f now jobs seen = .ok (out, seen')) :
    out.countP (fun a => decide (dedupKey a.job = L)) ≤ 1 ∧
    (∀ a ∈ out, dedupKey a.job = L →
      ∀ j ∈ jobs, within_days now j 7 = true → dedupKey j = L →
        ∀ s m, score_job j = .ok (s, m) → s ≤ a.score) := by
  obtain ⟨l, hann, hout, _⟩ := job_cycle_ok h
  constructor
  · have hpw : out.Pairwise (fun a b => dedupKey a.job ≠ dedupKey b.job) := by
      have hbase := dedupe_pairwise [] (List.insertionSort byScoreDesc l)
      exact hbase.sublist (hout ▸ List.filter_sublist _)
    exact countP_le_one_of_pairwise_ne hpw
  · intro a ha hkey j hj hrec hkj s m hsj
    have hau : a ∈ dedupe [] (List.insertionSort byScoreDesc l) := by
      rw [hout] at ha
      exact (List.mem_filter.mp ha).1
    obtain ⟨-, p, sfx, hsplit, hpre⟩ := dedupe_mem_decomp hau
    have hjf : j ∈ jobs.filter (fun j => within_days now j 7) :=
      List.mem_filter.mpr ⟨hj, hrec⟩
    obtain ⟨aj, haj_mem, haj⟩ := annotateAll_mem hann hjf
    obtain ⟨haj_job, haj_score⟩ := annotate_ok_fields haj
    have hs_eq : aj.score = s := by
      rw [hsj] at haj_score
      injection haj_score with hp
      exact (congrArg Prod.fst hp).symm
    have haj_sorted : aj ∈ List.insertionSort byScoreDesc l :=
      (List.mem_insertionSort byScoreDesc).mpr haj_mem
    have hkaj : dedupKey aj.job = L := by rw [haj_job]; exact hkj
    rw [hsplit] at haj_sorted
    rcases List.mem_append.mp haj_sorted with hmem | hmem
    · exact absurd (hkaj.trans hkey.symm) (hpre aj hmem)
    · rcases List.mem_cons.mp hmem with heq | hmem2
      · rw [← hs_eq, heq]
      · have hsorted : (List.insertionSort byScoreDesc l).Pairwise byScoreDesc :=
          List.sorted_insertionSort byScoreDesc l
        rw [hsplit] at hsorted
        have hrel : byScoreDesc a aj :=
          (List.pairwise_cons.mp (List.pairwise_append.mp hsorted).2.1).1 aj hmem2
        unfold byScoreDesc at hrel
        omega

/-- C10 (confirmed): every posting whose `id` and `link` both read as
`None` gets the seen identifier `None`; once any such posting has been
reported (its `None` identifier persisted), every id-less and link-less
posting of any later run is excluded from the output, regardless of
title, company or content. -/
theorem null_identifier_collision {f : String → Option String} {now : Int}
    {jobs : List Job} {seen seen' : List (Option String)} {out : List AJob}
    (h : job_cycle f now jobs seen = .ok (out, seen')) :
    (∀ j : Job, nullish j.id → nullish j.link → seenIdOf j = none) ∧
    ((∃ a ∈ out, nullish a.job.id ∧ nullish a.job.link) → none ∈ seen') ∧
    (none ∈ seen → ∀ a ∈ out, ¬(nullish a.job.id ∧ nullish a.job.link)) := by
  have hgen : ∀ j : Job, nullish j.id → nullish j.link → seenIdOf j = none := by
    intro j hid hlink
    have h1 : pyGet j.id = none := by rcases hid with h | h <;> rw [h] <;> rfl
    have h2 : pyGet j.link = none := by rcases hlink with h | h <;> rw [h] <;> rfl
    unfold seenIdOf
    rw [h1, h2]
    rfl
  obtain ⟨l, hann, hout, hseen'⟩ := job_cycle_ok h
  refine ⟨hgen, ?_, ?_⟩
  · rintro ⟨a, ha, hid, hlink⟩
    rw [hseen', List.mem_append]
    exact Or.inr (List.mem_map.mpr ⟨a, ha, hgen a.job hid hlink⟩)
  · rintro hnone a ha ⟨hid, hlink⟩
    rw [hout] at ha
    have hkeep := (List.mem_filter.mp ha).2
    unfold sendKeep at hkeep
    simp only [Bool.and_eq_true, Bool.not_eq_true', decide_eq_false_iff_not,
      decide_eq_true_eq] at hkeep
    exact hkeep.1 (by rw [hgen a.job hid hlink]; exact hnone)

/-- C3 (corrected), counterexample: a batch of two postings sharing the
non-empty link `"https://x/1"` (and matching no profile keyword, so both
score 0 < 1) produces an output with NO entry for that link — not
"exactly one" as claimed. -/
theorem dedup_key_counterexample :
    job_cycle (fun _ => none) 0
      [{ link := .str "https://x/1" }, { company := .str "Acme", link := .str "https://x/1" }]
      [] = .ok ([], []) ∧
    (job_cycle (fun _ => none) 0
      [{ link := .str "https://x/1" }, { company := .str "Acme", link := .str "https://x/1" }]
      []).map (fun p => p.1.countP (fun a => decide (dedupKey a.job = "https://x/1")))
      = .ok 0 :=
  ⟨rfl, rfl⟩

/-- Witness for C2: a batch with one scoring posting; the first run
reports it, the second run (from the persisted seen set) reports
nothing. -/
theorem second_run_is_empty_witness :
    job_cycle (fun _ => none) 0 [jW] [] = .ok ([aW], [some "https://x/1"]) ∧
    job_cycle (fun _ => none) 0 [jW] [some "https://x/1"] = .ok ([], [some "https://x/1"]) ∧
    ([] : List AJob) = [] :=
  ⟨rfl, rfl, @second_run_is_empty (fun _ => none) 0 [jW] [] [some "https://x/1"]
    [some "https://x/1"] [aW] [] rfl rfl⟩

/-- Witness for C6 at a two-posting batch with scores 5 and 1. -/
theorem output_scores_and_order_witness :
    (∀ a ∈ [aW], (1 : Int) ≤ a.score) ∧
    List.Pairwise byScoreDesc [aW] ∧
    (∀ v : Int, List.Sublist ([aW].filter (fun a => decide (a.score = v))) [aW, aL]) :=
  @output_scores_and_order (fun _ => none) 0 [jW, jL] [] [some "https://x/1"]
    [aW] [aW, aL] rfl rfl

/-- Witness for the amended C3: two postings share a link; the output
keeps exactly the higher-scored one and its score dominates every
recent posting with that key. -/
theorem dedup_key_unique_and_max_witness :
    List.countP (fun a => decide (dedupKey a.job = "https://x/1")) [aW] ≤ 1 ∧
    (∀ a ∈ [aW], dedupKey a.job = "https://x/1" →
      ∀ j ∈ [jW, jL], within_days 0 j 7 = true → dedupKey j = "https://x/1" →
        ∀ s m, score_job j = .ok (s, m) → s ≤ a.score) :=
  @dedup_key_unique_and_max (fun _ => none) 0 [jW, jL] [] [some "https://x/1"]
    [aW] "https://x/1" rfl

/-- Witness for C10: with `None` already in the seen set, a run on a
batch whose only posting lacks both id and link reports nothing. -/
theorem null_identifier_collision_witness :
    (∀ j : Job, nullish j.id → nullish j.link → seenIdOf j = none) ∧
    ((∃ a ∈ ([] : List AJob), nullish a.job.id ∧ nullish a.job.link) →
      none ∈ [(none : Option String)]) ∧
    (none ∈ [(none : Option String)] →
      ∀ a ∈ ([] : List AJob), ¬(nullish a.job.id ∧ nullish a.job.link)) :=
  @null_identifier_collision (fun _ => none) 0 [{ title := .str "devops engineer" }]
    [none] [none] [] rfl
